import Mathlib

/-!
Verification of the events-calendar application (`app.py` v2.0 and
`app_backup.py` v3.3, class `EventsCalendarAKS` /
`MotorsportCalendarEnterprise`).

Shallow embedding conventions used throughout this development:

* Python `datetime.date` values are modelled as `Int` day ordinals:
  Python date comparison corresponds to `Int` order and `(d2 - d1).days`
  corresponds to `Int` subtraction.
* A date field read with `datetime.strptime(s, '%Y-%m-%d')` is modelled as
  `Option Int`: `none` models a field that is missing from the record or
  whose parse raises (both cases make the code skip in the same way),
  `some d` models a successfully parsed date.
* Wall-clock instants (`datetime.now()`) are modelled as `Int` seconds, so
  `timedelta(minutes=5)` is `300`.
* Airtable record ids are opaque strings compared for equality.
* Fields of records that are only copied into display output (colors,
  formatted date strings, city names in derived entries, ...) and never
  branch-relevant are omitted from the embedded record types.
-/

/-! ## String helpers: Python `str.upper`, `str.lower`, `str.strip`, `in` -/

/-- Model of Python's `needle in hay` check limited to the leading position:
`leadMatch needle hay` holds when `needle` is an initial segment of `hay`. -/
def leadMatch : List Char → List Char → Bool
  | [], _ => true
  | _ :: _, [] => false
  | a :: as, b :: bs => a == b && leadMatch as bs

/-- Model of Python's substring containment `needle in hay`. -/
def containsSub (hay needle : List Char) : Bool :=
  match hay with
  | [] => needle.isEmpty
  | _ :: t => leadMatch needle hay || containsSub t needle

/-- Python `s.upper()` on the character list of a string (ASCII-faithful). -/
def upperChars (s : List Char) : List Char := s.map Char.toUpper

/-- Python `s.lower()` on the character list of a string (ASCII-faithful). -/
def lowerChars (s : List Char) : List Char := s.map Char.toLower

/-- Python `s.strip()`: drop whitespace from both ends. -/
def stripChars (s : List Char) : List Char :=
  ((s.dropWhile Char.isWhitespace).reverse.dropWhile Char.isWhitespace).reverse

/-! ## Category (SET) resolution: `_determine_set` and `championship_to_set` -/

/-- The `championship_to_set` dict from `__init__`, as an insertion-ordered
association list (identical in `app.py` line 90 and `app_backup.py` line 91). -/
def championship_to_set : List (String × String) :=
  [("WEC", "SET 1"), ("FIA", "SET 1"),
   ("CIRCUITCAT", "SET 2"), ("KATEYAMA", "SET 2"),
   ("FERRARI", "SET 3"), ("MCLAREN", "SET 3"),
   ("ELMS", "SET 5"),
   ("F4", "SET RW"), ("E3", "SET RW"), ("GSERIES", "SET RW"),
   ("E1", "SET6"),
   ("SCER", "SCER"),
   ("CERVH", "CERVH")]

/-- Embedding of `_determine_set` (`app.py` lines 326-337, `app_backup.py`
lines 587-598): empty championship resolves to `'default'`; otherwise the
value of the first table key occurring in `championship.upper()` is returned,
and `'default'` when no key occurs. -/
def determineSet (championship : String) : String :=
  if championship = "" then "default"
  else
    match championship_to_set.find? (fun kv => containsSub (upperChars championship.data) kv.1.data) with
    | some kv => kv.2
    | none => "default"

example : determineSet "" = "default" := by decide
example : determineSet "wec 6h monza" = "SET 1" := by decide
example : determineSet "WEC 6H MONZA" = "SET 1" := by decide
example : determineSet "Rally Catalunya" = "default" := by decide
example : determineSet "scer cervh" = "SCER" := by decide

/-! ## Cached table fetcher: `get_airtable_data`
(`app.py` lines 139-192, textually identical in `app_backup.py` lines 140-193)

The external Airtable API is modelled by a list of page responses: the
`k`-th element of the list is what the `k`-th `requests.get` call of the
pagination loop produces.  The per-table slice of `self.cache` /
`self.cache_expiry` is modelled by `CacheState`. -/

/-- Outcome of one `requests.get` call inside the pagination loop:
`ok recs more` is a 200 response whose body carries `recs` records and has
an `offset` key iff `more`; `httpErr` is any non-200 status; `exc` is a
raised exception (timeout, transport error, ...). -/
inductive PageResp (α : Type) where
  | ok (recs : List α) (more : Bool)
  | httpErr
  | exc
deriving DecidableEq, Repr

/-- The `while True` pagination loop of `get_airtable_data`, accumulating
`all_records`.  Returns `none` when an exception escapes the loop (the
enclosing `try` then returns `[]` without caching), otherwise the
accumulated records; the second component counts the `requests.get` calls
issued.  A 200 response extends `all_records` and continues only when an
`offset` is present; a non-200 response logs and `break`s, keeping what was
accumulated so far.  (An exhausted response list models the environment
providing no further responses; no theorem below depends on that case.) -/
def pageLoop {α : Type} : List (PageResp α) → List α → Option (List α) × Nat
  | [], acc => (some acc, 0)
  | .ok recs more :: rest, acc =>
      if more then
        let r := pageLoop rest (acc ++ recs)
        (r.1, r.2 + 1)
      else (some (acc ++ recs), 1)
  | .httpErr :: _, acc => (some acc, 1)
  | .exc :: _, _ => (none, 1)

/-- Per-table slice of the instance attributes `self.cache` and
`self.cache_expiry`: `cache = none` models the key being absent from the
dict, `cache_expiry = none` models the `.get(cache_key, datetime.min)`
default (a comparison `now < datetime.min` is always false). -/
structure CacheState (α : Type) where
  cache : Option (List α)
  cache_expiry : Option Int
deriving DecidableEq, Repr

/-- Result of one `get_airtable_data` call: the returned record list, the
cache state after the call, and the number of external HTTP requests the
call issued (0 when served from cache). -/
structure FetchOut (α : Type) where
  result : List α
  state : CacheState α
  requests : Nat
deriving DecidableEq, Repr

/-- The guard `datetime.now() < self.cache_expiry.get(cache_key, datetime.min)`. -/
def cacheFresh (now : Int) (expiry : Option Int) : Bool :=
  match expiry with
  | some t => decide (now < t)
  | none => false

/-- The cache-miss path of `get_airtable_data`: run the pagination loop; an
escaped exception returns `[]` and leaves the cache untouched; a non-empty
record list (`if all_records:`) is cached with expiry `now + 5 minutes`
(300 seconds); an empty result is returned without caching. -/
def fetchFresh {α : Type} (st : CacheState α) (now : Int) (responses : List (PageResp α)) : FetchOut α :=
  match pageLoop responses [] with
  | (none, n) => ⟨[], st, n⟩
  | (some recs, n) =>
      if recs.isEmpty then ⟨recs, st, n⟩
      else ⟨recs, ⟨some recs, some (now + 300)⟩, n⟩

/-- Embedding of `get_airtable_data` for one table: serve from cache when the
key is present and the expiry lies in the future, otherwise fetch fresh. -/
def get_airtable_data {α : Type} (st : CacheState α) (now : Int) (responses : List (PageResp α)) : FetchOut α :=
  match st.cache with
  | some recs =>
      if cacheFresh now st.cache_expiry then ⟨recs, st, 0⟩
      else fetchFresh st now responses
  | none => fetchFresh st now responses

/-- The `self.max_retries` attribute set in `__init__` (`app.py` line 54).
It is referenced nowhere else in the source. -/
def max_retries : Nat := 3

example : (get_airtable_data (⟨none, none⟩ : CacheState Nat) 0 [.ok [7] false]).result = [7] := by decide
example : (get_airtable_data (⟨none, none⟩ : CacheState Nat) 0 [.ok [7] false]).state =
    ⟨some [7], some 300⟩ := by decide
example : (get_airtable_data (⟨some [7], some 300⟩ : CacheState Nat) 299 [.exc]).requests = 0 := by decide
example : (get_airtable_data (⟨some [7], some 300⟩ : CacheState Nat) 301 [.exc]).result = [] := by decide
example : (get_airtable_data (⟨none, none⟩ : CacheState Nat) 0 [.ok [5] true, .httpErr]).result = [5] := by decide

/-! ## Airtable record model for `process_motorsport_data`
(`app_backup.py` lines 411-585, the later "PEOPLE RESERVED" iteration that
the specification treats as authoritative) -/

/-- An `EVENTS` table record: the fields `process_motorsport_data` reads.
`fromDate?`/`toDate?` model `fields['From']` / `fields['To']` after
`strptime` (`none` = field missing or parse failure, both of which hit
`continue`).  `championship` models the already-projected first element of
the `CAMPEONATO-CIRCUITO-ENTIDAD (from CHAMPIONSHIP)` lookup (`''` when
absent).  `people_reserved` is the `PEOPLE RESERVED` list of employee
record ids. -/
structure EventRec where
  id : String
  event_name : String
  city : String
  championship : String
  confirmed : Bool
  fromDate? : Option Int
  toDate? : Option Int
  people_reserved : List String
deriving DecidableEq, Repr

/-- An `EVENTS RESERVATIONS` table record: `event_links` is the `EVENT`
link list, `emp_links` the `Employee directory` link list,
`fromDate?`/`toDate?` the `FROM`/`TO` fields after `strptime` (`none` =
missing or unparseable), `remote` the `REMOTE` flag. -/
structure ResRec where
  event_links : List String
  emp_links : List String
  fromDate? : Option Int
  toDate? : Option Int
  remote : Bool
deriving DecidableEq, Repr

/-- An `Employee directory` table record (`id` and the `Name` field after
the `'Sin nombre'` default). -/
structure EmpRec where
  id : String
  name : String
deriving DecidableEq, Repr

/-- The `employees_by_id` dict built at the top of `process_motorsport_data`
(lines 424-426), queried with `.get(emp_id, 'Sin nombre')`.  A Python dict
built by iterated assignment keeps the last binding for a repeated key,
hence the `reverse`. -/
def employeeName (emps : List EmpRec) (empId : String) : String :=
  match emps.reverse.find? (fun e => e.id == empId) with
  | some e => e.name
  | none => "Sin nombre"

/-- One entry of an event's `reservations` list (the dict built at lines
489-495 resp. 509-515). -/
structure Reservation where
  employee : String
  from_date : Int
  to_date : Int
  remote : Bool
deriving DecidableEq, Repr

/-- The inner scan over `reservations_data` for one `(event, emp_id)` pair
(lines 476-502): the first record whose `EVENT` links contain the event id,
whose `Employee directory` links contain the employee id and whose
`FROM`/`TO` both parse provides the specific dates; records failing any of
these conditions are passed over without breaking the scan. -/
def resolveReservation (rsvs : List ResRec) (evId : String) (empId : String) : Option (Int × Int × Bool) :=
  match rsvs.find? (fun r =>
      r.event_links.contains evId && r.emp_links.contains empId
        && r.fromDate?.isSome && r.toDate?.isSome) with
  | some r =>
      match r.fromDate?, r.toDate? with
      | some s, some e => some (s, e, r.remote)
      | _, _ => none
  | none => none

/-- The per-employee step of the `for emp_id in people_reserved_ids` loop
(lines 472-515): use the employee's specific reservation dates when one
resolves, otherwise fall back to the event's own date range with
`remote = False`. -/
def buildReservation (emps : List EmpRec) (rsvs : List ResRec) (evId : String)
    (estart eend : Int) (empId : String) : Reservation :=
  match resolveReservation rsvs evId empId with
  | some (s, e, rem) => ⟨employeeName emps empId, s, e, rem⟩
  | none => ⟨employeeName emps empId, estart, eend, false⟩

/-- The `event_reservations` list built for one event: one entry per id in
`PEOPLE RESERVED`, in order. -/
def eventReservations (emps : List EmpRec) (rsvs : List ResRec) (ev : EventRec)
    (estart eend : Int) : List Reservation :=
  ev.people_reserved.map (buildReservation emps rsvs ev.id estart eend)

/-- A processed event entry (the `event_entry` dict, lines 520-537),
restricted to the branch-relevant fields; `color`, `coordinator`,
`duration_days`, `week_number` and `month` are display-only and omitted. -/
structure PEvent where
  event_id : String
  event_name : String
  city : String
  set_name : String
  confirmed : Bool
  from_date : Int
  to_date : Int
  reservations : List Reservation
  employees_count : Nat
  needs_attention : Bool
deriving DecidableEq, Repr

/-- Per-record processing of the main `for event_record in events_data`
loop: `none` models `continue` (missing/unparseable `From`/`To`, or a date
range outside the window `today .. today + 365`, line 457: the record is
skipped when `event_start > end_date or event_end < start_date`). -/
def processEvent (today : Int) (emps : List EmpRec) (rsvs : List ResRec)
    (ev : EventRec) : Option PEvent :=
  match ev.fromDate?, ev.toDate? with
  | some s, some e =>
      if s > today + 365 || e < today then none
      else
        let res := eventReservations emps rsvs ev s e
        some ⟨ev.id, ev.event_name, ev.city, determineSet ev.championship,
              ev.confirmed, s, e, res, res.length,
              res.length = 0 && ev.confirmed⟩
  | _, _ => none

/-- The scalar counters of the `stats` dict that the claims refer to; the
`events_by_*` histograms, `remote_assignments` and `critical_dates` are
accumulated in the same pass but are not needed by any claim and are
omitted. -/
structure Stats where
  total_events : Nat
  confirmed_events : Nat
  unassigned_events : Nat
  total_reservations : Nat
deriving DecidableEq, Repr

/-- Accumulator of the main processing loop. -/
structure ProcAcc where
  events : List PEvent
  unassigned : List PEvent
  stats : Stats
deriving DecidableEq, Repr

/-- One iteration of the main loop: a skipped record leaves the accumulator
unchanged; an included record is appended to `processed_events`, bumps the
counters, and is appended to `unassigned_events` exactly when
`len(event_reservations) == 0 and confirmed` (lines 549-551). -/
def procStep (today : Int) (emps : List EmpRec) (rsvs : List ResRec)
    (acc : ProcAcc) (ev : EventRec) : ProcAcc :=
  match processEvent today emps rsvs ev with
  | none => acc
  | some p =>
      { events := acc.events ++ [p]
        unassigned := acc.unassigned ++ (if p.reservations.isEmpty && p.confirmed then [p] else [])
        stats :=
          { total_events := acc.stats.total_events + 1
            confirmed_events := acc.stats.confirmed_events + (if p.confirmed then 1 else 0)
            unassigned_events := acc.stats.unassigned_events + (if p.reservations.isEmpty && p.confirmed then 1 else 0)
            total_reservations := acc.stats.total_reservations + p.reservations.length } }

/-- Ordering used by `processed_events.sort(key=lambda x: x['from_date'])`. -/
def pevLE (a b : PEvent) : Prop := a.from_date ≤ b.from_date

instance : DecidableRel pevLE := fun a b => inferInstanceAs (Decidable (a.from_date ≤ b.from_date))

instance : IsTotal PEvent pevLE := ⟨fun a b => le_total a.from_date b.from_date⟩

instance : IsTrans PEvent pevLE := ⟨fun _ _ _ h h' => le_trans h h'⟩

/-- The result of `process_motorsport_data` restricted to the claim-relevant
components (`conflicts`, `employee_timelines`, `travel_connections` and the
timestamps are computed from `events` afterwards and are modelled by the
stand-alone detectors below).  The `if not events_data: return {}` early
exit returns an empty dict, which coincides with this fold's value on an
empty record list. -/
def process_motorsport_data (today : Int) (events_data : List EventRec)
    (rsvs : List ResRec) (emps : List EmpRec) : ProcAcc :=
  let a := events_data.foldl (procStep today emps rsvs) ⟨[], [], ⟨0, 0, 0, 0⟩⟩
  { a with events := a.events.insertionSort pevLE }

/-! ## Conflict detector: `detect_conflicts`
(`app_backup.py` lines 195-243) -/

/-- One entry of `employee_timelines[employee]`: the dict built at lines
203-210 keeps the event id and the RESERVATION's dates (`reservation['from_date']`,
`reservation['to_date']`); `event`, `city` and `set` are display-only and
omitted. -/
structure TlEntry where
  event_id : String
  from_date : Int
  to_date : Int
deriving DecidableEq, Repr

/-- The grouping loop at lines 200-210 restricted to one employee name:
entries are appended in event order, then reservation order, exactly as the
`defaultdict(list)` accumulates them. -/
def employeeTimeline (events : List PEvent) (emp : String) : List TlEntry :=
  events.flatMap (fun e =>
    e.reservations.filterMap (fun r =>
      if r.employee = emp then some ⟨e.event_id, r.from_date, r.to_date⟩ else none))

/-- Ordering used by `timeline.sort(key=lambda x: x['from'])`. -/
def tlLE (a b : TlEntry) : Prop := a.from_date ≤ b.from_date

instance : DecidableRel tlLE := fun a b => inferInstanceAs (Decidable (a.from_date ≤ b.from_date))

instance : IsTotal TlEntry tlLE := ⟨fun a b => le_total a.from_date b.from_date⟩

instance : IsTrans TlEntry tlLE := ⟨fun _ _ _ h h' => le_trans h h'⟩

/-- The sorted timeline of one employee (line 214; Python's stable sort is
matched by the stable `insertionSort`). -/
def sortedTimeline (events : List PEvent) (emp : String) : List TlEntry :=
  (employeeTimeline events emp).insertionSort tlLE

/-- All index pairs `i < j` of a list, as ordered element pairs, in the
traversal order of the two nested `for` loops at lines 216-217. -/
def pairsAfter {α : Type} : List α → List (α × α)
  | [] => []
  | x :: xs => xs.map (fun y => (x, y)) ++ pairsAfter xs

/-- The dedup key `f"{employee}_{event1_id}_{event2_id}"` restricted to one
employee. -/
def conflictKey (p : TlEntry × TlEntry) : String × String :=
  (p.1.event_id, p.2.event_id)

/-- The body of the nested pair loop (lines 218-240): a pair is emitted when
`event1['to'] >= event2['from']` holds and its key was not seen before
(`conflict_details`). -/
def conflictScan : List (TlEntry × TlEntry) → List (String × String) → List (TlEntry × TlEntry)
  | [], _ => []
  | p :: ps, seen =>
      if p.2.from_date ≤ p.1.to_date then
        if conflictKey p ∈ seen then conflictScan ps seen
        else p :: conflictScan ps (conflictKey p :: seen)
      else conflictScan ps seen

/-- Embedding of `detect_conflicts` restricted to one employee name: the
conflict entries the function appends for this employee, each given as the
ordered `(event1, event2)` pair of timeline entries (the emitted dict copies
their fields plus display-only overlap strings). -/
def detect_conflicts (events : List PEvent) (emp : String) : List (TlEntry × TlEntry) :=
  conflictScan (pairsAfter (sortedTimeline events emp)) []

/-! ## Travel connection detector: `detect_travel_connections`
(`app_backup.py` lines 245-308) -/

/-- One entry of `employee_events[employee_name]` (lines 250-259): NOTE that
the loop stores the EVENT's date range (`event['from_date']`,
`event['to_date']`), not the reservation's own dates. -/
structure EmpEvent where
  event_id : String
  from_date : Int
  to_date : Int
deriving DecidableEq, Repr

/-- The grouping loop at lines 250-259 restricted to one employee name: one
entry per reservation of that employee, carrying the enclosing event's
dates. -/
def employeeEvents (events : List PEvent) (emp : String) : List EmpEvent :=
  events.flatMap (fun e =>
    e.reservations.filterMap (fun r =>
      if r.employee = emp then some ⟨e.event_id, e.from_date, e.to_date⟩ else none))

/-- The `from_previous` list computed for one event (lines 268-288): for
each reservation of the event and each other assignment of that employee,
a connection `(employee, other, days_gap)` is recorded when
`0 < (event['from_date'] - other['to_date']).days <= 7`.  The emitted dict
keeps the other event's name and city; the model keeps the whole
`EmpEvent`. -/
def fromPrevList (events : List PEvent) (ev : PEvent) : List (String × EmpEvent × Int) :=
  ev.reservations.flatMap (fun r =>
    (employeeEvents events r.employee).filterMap (fun o =>
      if o.event_id = ev.event_id then none
      else
        let d := ev.from_date - o.to_date
        if 0 < d ∧ d ≤ 7 then some (r.employee, o, d) else none))

/-- The `to_next` list computed for one event (lines 291-300): symmetric,
firing when `0 < (other['from_date'] - event['to_date']).days <= 7`. -/
def toNextList (events : List PEvent) (ev : PEvent) : List (String × EmpEvent × Int) :=
  ev.reservations.flatMap (fun r =>
    (employeeEvents events r.employee).filterMap (fun o =>
      if o.event_id = ev.event_id then none
      else
        let d := o.from_date - ev.to_date
        if 0 < d ∧ d ≤ 7 then some (r.employee, o, d) else none))

/-- Embedding of `detect_travel_connections`: the per-event dictionary,
keyed by event id, holding the `from_previous` and `to_next` lists (the
`people_with_travel` list is the projection of their employee names). -/
def detect_travel_connections (events : List PEvent) :
    List (String × List (String × EmpEvent × Int) × List (String × EmpEvent × Int)) :=
  events.map (fun ev => (ev.event_id, fromPrevList events ev, toNextList events ev))

/-! ## Available staff query: `find_available_staff`
(`app_backup.py` lines 310-409) -/

/-- An `Employee directory` record as read by `find_available_staff`
(`Name`, `EMAIL`, `POSITION` after their defaults). -/
structure StaffEmp where
  id : String
  name : String
  email : String
  role : String
deriving DecidableEq, Repr

/-- The `fake_names` placeholder list (lines 317-326). -/
def fake_names : List String :=
  ["airtable.user1", "tba", "tbc", "to be announced", "to be confirmed",
   "por confirmar", "por anunciar", "pendiente"]

/-- The `generic_names` list (line 351). -/
def generic_names : List String :=
  ["operations", "admin", "info", "contact", "support", "office", "staff", "team", "general"]

/-- FILTERS 1-5 of `find_available_staff` (lines 336-357): an employee
survives when the name has no `'@'`, `emp_name.lower().strip()` contains no
fake placeholder, the stripped name has at least 3 characters, the lowered
name contains no generic word, and (when a role filter is given and
non-empty, i.e. truthy) `role_filter.lower()` occurs in `emp_role.lower()`. -/
def passesFilters (roleFilter : Option String) (emp : StaffEmp) : Bool :=
  !(emp.name.data.contains '@')
    && !(fake_names.any (fun f => containsSub (stripChars (lowerChars emp.name.data)) f.data))
    && decide (3 ≤ (stripChars emp.name.data).length)
    && !(generic_names.any (fun g => containsSub (lowerChars emp.name.data) (lowerChars g.data)))
    && (match roleFilter with
        | none => true
        | some f => f.data.isEmpty || containsSub (lowerChars emp.role.data) (lowerChars f.data))

/-- The availability scan (lines 359-391): the employee stays available
unless some reservation record linked to them (`emp_record['id']` in the
`Employee directory` links) has parseable `FROM`/`TO` dates with
`not (res_end < start_date or res_start > end_date)`.  The `break` on the
first such record does not change the decision and is dropped. -/
def isAvailable (rsvs : List ResRec) (empId : String) (start_d end_d : Int) : Bool :=
  rsvs.all (fun r =>
    !(r.emp_links.contains empId)
      || match r.fromDate?, r.toDate? with
         | some s, some e => decide (e < start_d) || decide (s > end_d)
         | _, _ => true)

/-- The `total_events` counter (line 371): every reservation linked to the
employee counts, parseable or not.  It is only used as the final sort key. -/
def totalEvents (rsvs : List ResRec) (empId : String) : Nat :=
  (rsvs.filter (fun r => r.emp_links.contains empId)).length

/-- Ordering of `available_staff.sort(key=lambda x: x['total_events'],
reverse=True)`: descending by event count, stable among equals. -/
def staffGE (rsvs : List ResRec) (a b : StaffEmp) : Prop :=
  totalEvents rsvs b.id ≤ totalEvents rsvs a.id

instance (rsvs : List ResRec) : DecidableRel (staffGE rsvs) := fun a b =>
  inferInstanceAs (Decidable (totalEvents rsvs b.id ≤ totalEvents rsvs a.id))

/-- Embedding of `find_available_staff`: the employees reported available,
in output order.  The emitted dicts additionally carry `email`, `role`,
`total_events`, `sets_experience`, `last_event` and `days_available`,
display-only projections of the same record. -/
def find_available_staff (emps : List StaffEmp) (rsvs : List ResRec)
    (start_d end_d : Int) (roleFilter : Option String) : List StaffEmp :=
  (emps.filter (fun emp => passesFilters roleFilter emp && isAvailable rsvs emp.id start_d end_d)).insertionSort
    (staffGE rsvs)

/-! ## Concrete instances used by witnesses and counterexamples -/

/-- Response-page lists of the shape `page₁ 200 ... pageₖ 200, then failure`. -/
def okSeq {α : Type} (pgs : List (List α)) : List (PageResp α) :=
  pgs.map (fun rs => .ok rs true)

/-- Two processed events of employee `E` whose reservation ranges touch on
exactly one shared day (a same-day handoff on day 5). -/
def handoffEvents : List PEvent :=
  [⟨"evA", "Race A", "Roma", "default", true, 0, 5, [⟨"E", 0, 5, false⟩], 1, false⟩,
   ⟨"evB", "Race B", "Bari", "default", true, 5, 9, [⟨"E", 5, 9, false⟩], 1, false⟩]

/-- A reservation of employee `E` covering only the first days of a long
event. -/
def cexResA : Reservation := ⟨"E", 0, 2, false⟩

/-- A reservation of employee `E` at the start of a later event. -/
def cexResB : Reservation := ⟨"E", 20, 21, false⟩

/-- A long event (days 0-19) where `E` is reserved only for days 0-2. -/
def cexEvA : PEvent := ⟨"evA", "Race A", "Roma", "default", true, 0, 19, [cexResA], 1, false⟩

/-- A later event (days 20-25) where `E` is reserved for days 20-21. -/
def cexEvB : PEvent := ⟨"evB", "Race B", "Bari", "default", true, 20, 25, [cexResB], 1, false⟩

/-- The two-event schedule of `E` used against claim C2. -/
def cexEvents : List PEvent := [cexEvA, cexEvB]

/-- An in-window confirmed event record with an empty `PEOPLE RESERVED`
list. -/
def wEv1 : EventRec := ⟨"e1", "Ev One", "Roma", "", true, some 0, some 1, []⟩

/-- An in-window confirmed event record with one reserved employee. -/
def wEv2 : EventRec := ⟨"e2", "Ev Two", "Bari", "", true, some 2, some 3, ["emp1"]⟩

/-- An event record that ended before the processing day. -/
def wEvPast : EventRec := ⟨"e0", "Ev Past", "Oslo", "", true, some (-30), some (-10), []⟩

/-- A one-employee directory for the witnesses. -/
def wEmps : List EmpRec := [⟨"emp1", "Alice"⟩]

/-- The processed entry of `wEv1` on processing day 0. -/
def wP1 : PEvent := ⟨"e1", "Ev One", "Roma", "default", true, 0, 1, [], 0, true⟩

/-- The processed entry of `wEv2` on processing day 0: `emp1` has no
reservation row, so the entry falls back to the event's own dates. -/
def wP2 : PEvent := ⟨"e2", "Ev Two", "Bari", "default", true, 2, 3, [⟨"Alice", 2, 3, false⟩], 1, false⟩

/-! ## Theorems -/

/-- Strings with the same upper-case image are empty together. -/
theorem upperChars_eq_nil_iff (c c' : String)
    (hcase : upperChars c.data = upperChars c'.data) : c = "" ↔ c' = "" := by
  rw [String.ext_iff, String.ext_iff]
  show c.data = "".data ↔ c'.data = "".data
  constructor
  · intro h
    have : upperChars c'.data = [] := by rw [← hcase, h]; rfl
    simpa [upperChars] using this
  · intro h
    have : upperChars c.data = [] := by rw [hcase, h]; rfl
    simpa [upperChars] using this

/-- C3. Category (SET) resolution: `_determine_set` returns the value of the
first keyword of `championship_to_set` occurring as a substring of the
upper-cased championship string; an empty string, and a string matched by no
keyword, resolve to the default category; and the result only depends on the
string up to letter case. -/
theorem determineSet_resolution (c c' : String)
    (hcase : upperChars c.data = upperChars c'.data) :
    (determineSet c =
      match championship_to_set.find? (fun kv => containsSub (upperChars c.data) kv.1.data) with
      | some kv => kv.2
      | none => "default")
    ∧ ((∀ kv ∈ championship_to_set, containsSub (upperChars c.data) kv.1.data = false) →
        determineSet c = "default")
    ∧ determineSet c = determineSet c' := by
  have key : ∀ d : String,
      determineSet d =
        match championship_to_set.find? (fun kv => containsSub (upperChars d.data) kv.1.data) with
        | some kv => kv.2
        | none => "default" := by
    intro d
    by_cases hd : d = ""
    · subst hd; decide
    · simp [determineSet, hd]
  refine ⟨key c, ?dflt, ?inv⟩
  case dflt =>
    intro hnone
    rw [key c, List.find?_eq_none.mpr (fun kv hkv => by simp [hnone kv hkv])]
  case inv =>
    rw [key c, key c', hcase]

/-- C3 witness: the theorem applied to two casings of a WEC championship
name. -/
theorem determineSet_resolution_witness :
    determineSet "wec 6h Monza" = "SET 1" ∧ determineSet "wec 6h Monza" = determineSet "WEC 6H MONZA" := by
  have h := determineSet_resolution "wec 6h Monza" "WEC 6H MONZA" (by decide)
  exact ⟨by rw [h.1]; decide, h.2.2⟩

/-- C4. Cache TTL: after a cache-miss call at time `T` whose pagination
succeeds with a non-empty record set, a repeated call at `T + 299` seconds
(4 min 59 s) returns exactly the cached records and issues no external
request, while a repeated call at `T + 301` seconds (5 min 01 s) is not
served from the cache: its result and request count are those of the fresh
pagination loop, and at least one external request is issued as soon as the
API produces any response. -/
theorem cache_ttl {α : Type} (st0 : CacheState α) (T : Int)
    (rs rs' rs'' : List (PageResp α)) (recs : List α) (n : Nat)
    (hcold : st0.cache = none)
    (hload : pageLoop rs [] = (some recs, n))
    (hne : recs ≠ []) :
    ((get_airtable_data (get_airtable_data st0 T rs).state (T + 299) rs').result = recs
      ∧ (get_airtable_data (get_airtable_data st0 T rs).state (T + 299) rs').requests = 0)
    ∧ ((get_airtable_data (get_airtable_data st0 T rs).state (T + 301) rs'').result
          = (pageLoop rs'' []).1.getD []
      ∧ (get_airtable_data (get_airtable_data st0 T rs).state (T + 301) rs'').requests
          = (pageLoop rs'' []).2)
    ∧ (∀ p rest, 1 ≤ (get_airtable_data (get_airtable_data st0 T rs).state (T + 301) (p :: rest)).requests) := by
  have hst1 : (get_airtable_data st0 T rs).state = ⟨some recs, some (T + 300)⟩ := by
    simp [get_airtable_data, hcold, fetchFresh, hload, List.isEmpty_iff, hne]
  rw [hst1]
  have hfresh : cacheFresh (T + 299) (some (T + 300)) = true := by
    simp [cacheFresh]
  have hstale : cacheFresh (T + 301) (some (T + 300)) = false := by
    simp [cacheFresh]
  refine ⟨⟨?_, ?_⟩, ⟨?_, ?_⟩, ?_⟩
  · simp [get_airtable_data, hfresh]
  · simp [get_airtable_data, hfresh]
  · simp only [get_airtable_data, hstale, if_false, fetchFresh]
    rcases hp : pageLoop rs'' [] with ⟨o, m⟩
    cases o with
    | none => simp
    | some r2 => by_cases h2 : r2.isEmpty <;> simp [h2]
  · simp only [get_airtable_data, hstale, if_false, fetchFresh]
    rcases hp : pageLoop rs'' [] with ⟨o, m⟩
    cases o with
    | none => simp
    | some r2 => by_cases h2 : r2.isEmpty <;> simp [h2]
  · intro p rest
    simp only [get_airtable_data, hstale, if_false, fetchFresh]
    have hreq : 1 ≤ (pageLoop (p :: rest) ([] : List α)).2 := by
      cases p with
      | ok r2 more => cases more <;> simp [pageLoop]
      | httpErr => simp [pageLoop]
      | exc => simp [pageLoop]
    rcases hp : pageLoop (p :: rest) [] with ⟨o, m⟩
    rw [hp] at hreq
    cases o with
    | none => simpa using hreq
    | some r2 => by_cases h2 : r2.isEmpty <;> simpa [h2] using hreq

/-- C4 witness: the theorem applied to a one-page fetch of the record `7`. -/
theorem cache_ttl_witness :
    ((get_airtable_data (get_airtable_data (⟨none, none⟩ : CacheState Nat) 0 [.ok [7] false]).state
        ((0 : Int) + 299) [.exc]).result = [7]
      ∧ (get_airtable_data (get_airtable_data (⟨none, none⟩ : CacheState Nat) 0 [.ok [7] false]).state
        ((0 : Int) + 299) [.exc]).requests = 0)
    ∧ ((get_airtable_data (get_airtable_data (⟨none, none⟩ : CacheState Nat) 0 [.ok [7] false]).state
        ((0 : Int) + 301) [.exc]).result = (pageLoop ([.exc] : List (PageResp Nat)) []).1.getD []
      ∧ (get_airtable_data (get_airtable_data (⟨none, none⟩ : CacheState Nat) 0 [.ok [7] false]).state
        ((0 : Int) + 301) [.exc]).requests = (pageLoop ([.exc] : List (PageResp Nat)) []).2)
    ∧ (∀ p rest, 1 ≤ (get_airtable_data (get_airtable_data (⟨none, none⟩ : CacheState Nat) 0 [.ok [7] false]).state
        ((0 : Int) + 301) (p :: rest)).requests) :=
  cache_ttl (⟨none, none⟩ : CacheState Nat) 0 [.ok [7] false] [.exc] [.exc] [7] 1
    rfl (by decide) (by decide)

/-- C5 counterexample: on a cold cache, when the first request fails with a
non-200 status while the API would answer the next request successfully,
`get_airtable_data` issues exactly one request — not the second one a
retrying client (`max_retries = 3`) would issue — and returns `[]`. -/
theorem no_retry_counterexample :
    (get_airtable_data (⟨none, none⟩ : CacheState Nat) 0 [.httpErr, .ok [7] false]).requests = 1
    ∧ (get_airtable_data (⟨none, none⟩ : CacheState Nat) 0 [.httpErr, .ok [7] false]).result = []
    ∧ ¬ 2 ≤ (get_airtable_data (⟨none, none⟩ : CacheState Nat) 0 [.httpErr, .ok [7] false]).requests := by
  decide

/-- C5 amended: `get_airtable_data` performs no retry at all.  On a cold
cache, a first-response transport exception ends the call immediately with
one issued request, result `[]` and an unchanged cache; a first-response
non-200 status likewise ends the call after one request with result `[]`
and an unchanged cache.  (`self.max_retries = 3` is assigned in `__init__`
but never read.) -/
theorem no_retry {α : Type} (st : CacheState α) (now : Int)
    (rest rest' : List (PageResp α)) (hcold : st.cache = none) :
    (get_airtable_data st now (.exc :: rest) = ⟨[], st, 1⟩)
    ∧ (get_airtable_data st now (.httpErr :: rest') = ⟨[], st, 1⟩) := by
  constructor
  · simp [get_airtable_data, hcold, fetchFresh, pageLoop]
  · simp [get_airtable_data, hcold, fetchFresh, pageLoop]

/-- C5 witness: the amended theorem applied to a cold cache. -/
theorem no_retry_witness :
    (get_airtable_data (⟨none, none⟩ : CacheState Nat) 0 [.exc] = ⟨[], ⟨none, none⟩, 1⟩)
    ∧ (get_airtable_data (⟨none, none⟩ : CacheState Nat) 0 [.httpErr] = ⟨[], ⟨none, none⟩, 1⟩) :=
  no_retry (⟨none, none⟩ : CacheState Nat) 0 [] [] rfl

/-- C6 counterexample: a fetch that fails with a non-200 status on its
second page is a failed fetch, yet `get_airtable_data` returns the non-empty
records accumulated from the first page, not an empty collection. -/
theorem partial_records_counterexample :
    (get_airtable_data (⟨none, none⟩ : CacheState Nat) 0 [.ok [5] true, .httpErr]).result = [5]
    ∧ [5] ≠ ([] : List Nat) := by
  decide

/-- The pagination loop on `k` successful pages followed by a non-200
status: the accumulated pages are kept, `k + 1` requests were made. -/
theorem pageLoop_okSeq_httpErr {α : Type} (pgs : List (List α)) (rest : List (PageResp α)) :
    ∀ acc, pageLoop (okSeq pgs ++ .httpErr :: rest) acc = (some (acc ++ pgs.flatten), pgs.length + 1) := by
  induction pgs with
  | nil => intro acc; simp [okSeq, pageLoop]
  | cons rs pgs ih =>
      intro acc
      simp only [okSeq, List.map_cons, List.cons_append, pageLoop, if_true, List.append_eq]
      rw [show List.map (fun rs => PageResp.ok rs true) pgs = okSeq pgs from rfl, ih (acc ++ rs)]
      simp [List.append_assoc]

/-- The pagination loop on `k` successful pages followed by an exception:
everything is discarded, `k + 1` requests were made. -/
theorem pageLoop_okSeq_exc {α : Type} (pgs : List (List α)) (rest : List (PageResp α)) :
    ∀ acc, pageLoop (okSeq pgs ++ .exc :: rest) acc = (none, pgs.length + 1) := by
  induction pgs with
  | nil => intro acc; simp [okSeq, pageLoop]
  | cons rs pgs ih =>
      intro acc
      simp only [okSeq, List.map_cons, List.cons_append, pageLoop, if_true, List.append_eq]
      rw [show List.map (fun rs => PageResp.ok rs true) pgs = okSeq pgs from rfl, ih (acc ++ rs)]
      simp

/-- C6 amended: on a cold cache, a fetch aborted by an exception returns the
empty collection; a fetch stopped by a non-200 status returns exactly the
records accumulated from the pages before the failure — empty when the
failure hits the first request, in which case the result coincides with the
result of fetching a genuinely empty table. -/
theorem fetch_failure {α : Type} (st : CacheState α) (now : Int)
    (pgs : List (List α)) (rest rest' : List (PageResp α)) (hcold : st.cache = none) :
    (get_airtable_data st now (okSeq pgs ++ .httpErr :: rest)).result = pgs.flatten
    ∧ (get_airtable_data st now (okSeq pgs ++ .exc :: rest')).result = []
    ∧ (get_airtable_data st now (okSeq [] ++ .httpErr :: rest)).result = []
    ∧ (get_airtable_data st now [.ok [] false]).result = [] := by
  refine ⟨?_, ?_, ?_, ?_⟩
  · simp only [get_airtable_data, hcold, fetchFresh, pageLoop_okSeq_httpErr]
    by_cases h : (pgs.flatten (α := α)).isEmpty <;> simp [h]
  · simp [get_airtable_data, hcold, fetchFresh, pageLoop_okSeq_exc]
  · simp [get_airtable_data, hcold, fetchFresh, pageLoop_okSeq_httpErr]
  · simp [get_airtable_data, hcold, fetchFresh, pageLoop]

/-- C6 witness: the amended theorem applied to one good page of records
followed by a failing page. -/
theorem fetch_failure_witness :
    (get_airtable_data (⟨none, none⟩ : CacheState Nat) 0 (okSeq [[5]] ++ .httpErr :: [])).result = [[5]].flatten
    ∧ (get_airtable_data (⟨none, none⟩ : CacheState Nat) 0 (okSeq [[5]] ++ .exc :: [])).result = []
    ∧ (get_airtable_data (⟨none, none⟩ : CacheState Nat) 0 (okSeq [] ++ .httpErr :: [])).result = []
    ∧ (get_airtable_data (⟨none, none⟩ : CacheState Nat) 0 [.ok [] false]).result = [] :=
  fetch_failure (⟨none, none⟩ : CacheState Nat) 0 [[5]] [] [] rfl

/-- C2 counterexample: employee `E` holds one assignment on days 0-2 of the
long event `evA` (event days 0-19) and one assignment on days 20-21 of the
later event `evB` (event days 20-25).  The gap between the two ASSIGNMENTS
is `20 - 2 = 18` days, far outside 1..7, yet `detect_travel_connections`
reports a from-previous connection for `evB` (with `days_gap = 1`), because
the code measures the gap between the EVENTS' date ranges. -/
theorem travel_gap_counterexample :
    cexEvA.reservations = [cexResA] ∧ cexEvB.reservations = [cexResB]
    ∧ cexResA.employee = cexResB.employee
    ∧ ("E", (⟨"evA", 0, 19⟩ : EmpEvent), (1 : Int)) ∈ fromPrevList cexEvents cexEvB
    ∧ ¬(1 ≤ cexResB.from_date - cexResA.to_date ∧ cexResB.from_date - cexResA.to_date ≤ 7) := by
  decide

/-- Membership characterization of the from-previous scan. -/
theorem fromPrev_mem_iff (events : List PEvent) (ev : PEvent) (emp : String)
    (o : EmpEvent) (d : Int) :
    (emp, o, d) ∈ fromPrevList events ev ↔
      (∃ r ∈ ev.reservations, r.employee = emp) ∧ o ∈ employeeEvents events emp
        ∧ o.event_id ≠ ev.event_id ∧ d = ev.from_date - o.to_date ∧ 1 ≤ d ∧ d ≤ 7 := by
  simp only [fromPrevList, List.mem_flatMap, List.mem_filterMap]
  constructor
  · rintro ⟨r, hr, o', ho', heq⟩
    by_cases hid : o'.event_id = ev.event_id
    · rw [if_pos hid] at heq; exact absurd heq (by simp)
    · rw [if_neg hid] at heq
      by_cases hcond : 0 < ev.from_date - o'.to_date ∧ ev.from_date - o'.to_date ≤ 7
      · rw [if_pos hcond] at heq
        obtain ⟨he, ho2, hd⟩ : r.employee = emp ∧ o' = o ∧ ev.from_date - o'.to_date = d := by
          simpa using heq
        subst he; subst ho2; subst hd
        have h1' : 1 ≤ ev.from_date - o'.to_date := by
          have h0 := hcond.1
          omega
        exact ⟨⟨r, hr, rfl⟩, ho', hid, rfl, h1', hcond.2⟩
      · rw [if_neg hcond] at heq; exact absurd heq (by simp)
  · rintro ⟨⟨r, hr, hremp⟩, ho, hne, hd, h1, h7⟩
    subst hremp
    refine ⟨r, hr, o, ho, ?_⟩
    have hcond : 0 < ev.from_date - o.to_date ∧ ev.from_date - o.to_date ≤ 7 := by
      constructor <;> omega
    rw [if_neg hne, if_pos hcond, hd]

/-- Membership characterization of the to-next scan. -/
theorem toNext_mem_iff (events : List PEvent) (ev : PEvent) (emp : String)
    (o : EmpEvent) (d : Int) :
    (emp, o, d) ∈ toNextList events ev ↔
      (∃ r ∈ ev.reservations, r.employee = emp) ∧ o ∈ employeeEvents events emp
        ∧ o.event_id ≠ ev.event_id ∧ d = o.from_date - ev.to_date ∧ 1 ≤ d ∧ d ≤ 7 := by
  simp only [toNextList, List.mem_flatMap, List.mem_filterMap]
  constructor
  · rintro ⟨r, hr, o', ho', heq⟩
    by_cases hid : o'.event_id = ev.event_id
    · rw [if_pos hid] at heq; exact absurd heq (by simp)
    · rw [if_neg hid] at heq
      by_cases hcond : 0 < o'.from_date - ev.to_date ∧ o'.from_date - ev.to_date ≤ 7
      · rw [if_pos hcond] at heq
        obtain ⟨he, ho2, hd⟩ : r.employee = emp ∧ o' = o ∧ o'.from_date - ev.to_date = d := by
          simpa using heq
        subst he; subst ho2; subst hd
        have h1' : 1 ≤ o'.from_date - ev.to_date := by
          have h0 := hcond.1
          omega
        exact ⟨⟨r, hr, rfl⟩, ho', hid, rfl, h1', hcond.2⟩
      · rw [if_neg hcond] at heq; exact absurd heq (by simp)
  · rintro ⟨⟨r, hr, hremp⟩, ho, hne, hd, h1, h7⟩
    subst hremp
    refine ⟨r, hr, o, ho, ?_⟩
    have hcond : 0 < o.from_date - ev.to_date ∧ o.from_date - ev.to_date ≤ 7 := by
      constructor <;> omega
    rw [if_neg hne, if_pos hcond, hd]

/-- C2 amended: for an event `ev`, the travel-connection detector records a
from-previous connection `(emp, other, gap)` iff `emp` is reserved at `ev`,
`other` is an assignment entry of `emp` at a different EVENT, and the OTHER
EVENT's end date precedes the CURRENT EVENT's start date by 1 to 7 days
inclusive (so gaps of exactly 0 and exactly 8 event-days do not fire); the
to-next connection is symmetric, on the other event's start versus the
current event's end.  The gaps are measured between the events' own date
ranges, not between the assignments' reservation dates. -/
theorem travel_connection_gap (events : List PEvent) (ev : PEvent) (emp : String)
    (o : EmpEvent) (d : Int) :
    ((emp, o, d) ∈ fromPrevList events ev ↔
      (∃ r ∈ ev.reservations, r.employee = emp) ∧ o ∈ employeeEvents events emp
        ∧ o.event_id ≠ ev.event_id ∧ d = ev.from_date - o.to_date ∧ 1 ≤ d ∧ d ≤ 7)
    ∧ ((emp, o, d) ∈ toNextList events ev ↔
      (∃ r ∈ ev.reservations, r.employee = emp) ∧ o ∈ employeeEvents events emp
        ∧ o.event_id ≠ ev.event_id ∧ d = o.from_date - ev.to_date ∧ 1 ≤ d ∧ d ≤ 7) :=
  ⟨fromPrev_mem_iff events ev emp o d, toNext_mem_iff events ev emp o d⟩

/-- Characterization of the availability scan: the employee stays available
iff no reservation linked to them with parseable dates overlaps the query
range, with inclusive boundaries. -/
theorem isAvailable_iff (rsvs : List ResRec) (empId : String) (start_d end_d : Int) :
    isAvailable rsvs empId start_d end_d = true ↔
      ∀ r ∈ rsvs, r.emp_links.contains empId = true →
        ∀ s e, r.fromDate? = some s → r.toDate? = some e → ¬(s ≤ end_d ∧ start_d ≤ e) := by
  unfold isAvailable
  rw [List.all_eq_true]
  constructor
  · intro h r hr hlink s e hs he hover
    have hb := h r hr
    rw [hlink, hs, he] at hb
    simp at hb
    omega
  · intro h r hr
    by_cases hlink : r.emp_links.contains empId = true
    · rcases hfrom : r.fromDate? with _ | s
      · simp [hlink, hfrom]
      · rcases hto : r.toDate? with _ | e
        · simp [hlink, hfrom, hto]
        · have hno := h r hr hlink s e hfrom hto
          simp [hlink, hfrom, hto]
          omega
    · rw [Bool.not_eq_true] at hlink
      simp [hlink]
      exact Or.inl (by simpa using hlink)

/-- C10. An employee is reported by `find_available_staff` for the query
range `[start_date, end_date]` iff they pass the name/role filters and no
reservation record linked to them with parseable `FROM`/`TO` dates has a
range overlapping the query range, overlap being inclusive at both
boundaries (`res_start ≤ end_date` and `start_date ≤ res_end`). -/
theorem available_staff_iff (emps : List StaffEmp) (rsvs : List ResRec)
    (start_d end_d : Int) (rf : Option String) (emp : StaffEmp) :
    emp ∈ find_available_staff emps rsvs start_d end_d rf ↔
      emp ∈ emps ∧ passesFilters rf emp = true ∧
        ∀ r ∈ rsvs, r.emp_links.contains emp.id = true →
          ∀ s e, r.fromDate? = some s → r.toDate? = some e → ¬(s ≤ end_d ∧ start_d ≤ e) := by
  unfold find_available_staff
  rw [List.mem_insertionSort, List.mem_filter, Bool.and_eq_true, isAvailable_iff]

/-- The main processing loop appends exactly the non-skipped records, in
order. -/
theorem procFold_events (today : Int) (emps : List EmpRec) (rsvs : List ResRec) :
    ∀ (l : List EventRec) (acc : ProcAcc),
      (l.foldl (procStep today emps rsvs) acc).events
        = acc.events ++ l.filterMap (processEvent today emps rsvs) := by
  intro l
  induction l with
  | nil => intro acc; simp
  | cons ev l ih =>
      intro acc
      rw [List.foldl_cons, ih]
      cases hp : processEvent today emps rsvs ev with
      | none => simp [procStep, hp]
      | some p => simp [procStep, hp]

/-- The unassigned list collects exactly the included events with no
reservations and a set confirmed flag, in order. -/
theorem procFold_unassigned (today : Int) (emps : List EmpRec) (rsvs : List ResRec) :
    ∀ (l : List EventRec) (acc : ProcAcc),
      (l.foldl (procStep today emps rsvs) acc).unassigned
        = acc.unassigned
          ++ (l.filterMap (processEvent today emps rsvs)).filter
              (fun p => p.reservations.isEmpty && p.confirmed) := by
  intro l
  induction l with
  | nil => intro acc; simp
  | cons ev l ih =>
      intro acc
      rw [List.foldl_cons, ih]
      cases hp : processEvent today emps rsvs ev with
      | none => simp [procStep, hp]
      | some p =>
          by_cases hc : (p.reservations.isEmpty && p.confirmed) = true
          · simp [procStep, hp, hc]
          · rw [Bool.not_eq_true] at hc
            simp [procStep, hp, hc]

/-- The `total_events` counter counts exactly the included events. -/
theorem procFold_total (today : Int) (emps : List EmpRec) (rsvs : List ResRec) :
    ∀ (l : List EventRec) (acc : ProcAcc),
      (l.foldl (procStep today emps rsvs) acc).stats.total_events
        = acc.stats.total_events + (l.filterMap (processEvent today emps rsvs)).length := by
  intro l
  induction l with
  | nil => intro acc; simp
  | cons ev l ih =>
      intro acc
      rw [List.foldl_cons, ih]
      cases hp : processEvent today emps rsvs ev with
      | none => simp [procStep, hp]
      | some p => simp [procStep, hp]; omega

/-- The `unassigned_events` counter counts exactly the entries of the
unassigned list. -/
theorem procFold_unassigned_count (today : Int) (emps : List EmpRec) (rsvs : List ResRec) :
    ∀ (l : List EventRec) (acc : ProcAcc),
      (l.foldl (procStep today emps rsvs) acc).stats.unassigned_events
        = acc.stats.unassigned_events
          + ((l.filterMap (processEvent today emps rsvs)).filter
              (fun p => p.reservations.isEmpty && p.confirmed)).length := by
  intro l
  induction l with
  | nil => intro acc; simp
  | cons ev l ih =>
      intro acc
      rw [List.foldl_cons, ih]
      cases hp : processEvent today emps rsvs ev with
      | none => simp [procStep, hp]
      | some p =>
          by_cases hc : (p.reservations.isEmpty && p.confirmed) = true
          · simp [procStep, hp, hc]; omega
          · rw [Bool.not_eq_true] at hc
            simp [procStep, hp, hc]

/-- The processed event list, unfolded. -/
theorem process_events_eq (today : Int) (evs : List EventRec) (rsvs : List ResRec)
    (emps : List EmpRec) :
    (process_motorsport_data today evs rsvs emps).events
      = (evs.filterMap (processEvent today emps rsvs)).insertionSort pevLE := by
  unfold process_motorsport_data
  simp [procFold_events]

/-- The unassigned list, unfolded. -/
theorem process_unassigned_eq (today : Int) (evs : List EventRec) (rsvs : List ResRec)
    (emps : List EmpRec) :
    (process_motorsport_data today evs rsvs emps).unassigned
      = (evs.filterMap (processEvent today emps rsvs)).filter
          (fun p => p.reservations.isEmpty && p.confirmed) := by
  unfold process_motorsport_data
  simp [procFold_unassigned]

/-- C7. An event record whose `From`/`To` fields parse as dates yields an
entry of the processed result iff its date range meets the forward-looking
window `today .. today + 365` (it is not skipped exactly when
`event_start ≤ today + 365` and `event_end ≥ today`); every entry of the
unassigned list is an entry of the processed list, and the statistics
counters range over the included events only. -/
theorem window_filter (today : Int) (evs : List EventRec) (rsvs : List ResRec)
    (emps : List EmpRec) (ev : EventRec) (s e : Int)
    (hev : ev ∈ evs) (hs : ev.fromDate? = some s) (he : ev.toDate? = some e) :
    ((∃ p, processEvent today emps rsvs ev = some p
        ∧ p ∈ (process_motorsport_data today evs rsvs emps).events)
      ↔ (s ≤ today + 365 ∧ today ≤ e))
    ∧ (∀ p ∈ (process_motorsport_data today evs rsvs emps).unassigned,
        p ∈ (process_motorsport_data today evs rsvs emps).events)
    ∧ (process_motorsport_data today evs rsvs emps).stats.total_events
        = (process_motorsport_data today evs rsvs emps).events.length
    ∧ (process_motorsport_data today evs rsvs emps).stats.unassigned_events
        = (process_motorsport_data today evs rsvs emps).unassigned.length := by
  refine ⟨⟨?_, ?_⟩, ?_, ?_, ?_⟩
  · rintro ⟨p, hp, _⟩
    simp only [processEvent, hs, he] at hp
    split at hp
    · exact absurd hp (by simp)
    · rename_i hcond
      simp at hcond
      omega
  · rintro ⟨h1, h2⟩
    have hcond : (decide (s > today + 365) || decide (e < today)) = false := by
      simp; omega
    have hp : processEvent today emps rsvs ev
        = some ⟨ev.id, ev.event_name, ev.city, determineSet ev.championship,
                ev.confirmed, s, e, eventReservations emps rsvs ev s e,
                (eventReservations emps rsvs ev s e).length,
                (eventReservations emps rsvs ev s e).length = 0 && ev.confirmed⟩ := by
      simp only [processEvent, hs, he, hcond]
      simp
    refine ⟨_, hp, ?_⟩
    rw [process_events_eq, List.mem_insertionSort]
    exact List.mem_filterMap.mpr ⟨ev, hev, hp⟩
  · intro p hp
    rw [process_unassigned_eq] at hp
    rw [process_events_eq, List.mem_insertionSort]
    exact (List.mem_filter.mp hp).1
  · rw [process_events_eq, List.length_insertionSort]
    unfold process_motorsport_data
    simp [procFold_total]
  · rw [process_unassigned_eq]
    unfold process_motorsport_data
    simp [procFold_unassigned_count]

/-- C7 witness: with processing day 0, the record `wEv1` (days 0-1) is
included while `wEvPast` (days -30..-10) is excluded. -/
theorem window_filter_witness :
    ((∃ p, processEvent 0 wEmps [] wEv1 = some p
        ∧ p ∈ (process_motorsport_data 0 [wEvPast, wEv1] [] wEmps).events)
      ↔ ((0 : Int) ≤ 0 + 365 ∧ (0 : Int) ≤ 1))
    ∧ (∀ p ∈ (process_motorsport_data 0 [wEvPast, wEv1] [] wEmps).unassigned,
        p ∈ (process_motorsport_data 0 [wEvPast, wEv1] [] wEmps).events)
    ∧ (process_motorsport_data 0 [wEvPast, wEv1] [] wEmps).stats.total_events
        = (process_motorsport_data 0 [wEvPast, wEv1] [] wEmps).events.length
    ∧ (process_motorsport_data 0 [wEvPast, wEv1] [] wEmps).stats.unassigned_events
        = (process_motorsport_data 0 [wEvPast, wEv1] [] wEmps).unassigned.length :=
  window_filter 0 [wEvPast, wEv1] [] wEmps wEv1 0 1 (by decide) rfl rfl

/-- C8. An event appears in the unassigned-events list iff it appears in
the processed events with an empty reservations list and a set confirmed
flag; in particular, processing exactly two in-window records — one with no
assigned staff and `confirmed = true`, one staffed — puts exactly the first
in the unassigned list. -/
theorem unassigned_membership (today : Int) (evs : List EventRec) (rsvs : List ResRec)
    (emps : List EmpRec) (q : PEvent) (e1 e2 : EventRec) (p1 p2 : PEvent)
    (hp1 : processEvent today emps rsvs e1 = some p1)
    (h1r : p1.reservations = []) (h1c : p1.confirmed = true)
    (hp2 : processEvent today emps rsvs e2 = some p2)
    (h2r : p2.reservations ≠ []) :
    (q ∈ (process_motorsport_data today evs rsvs emps).unassigned ↔
       q ∈ (process_motorsport_data today evs rsvs emps).events
         ∧ q.reservations = [] ∧ q.confirmed = true)
    ∧ (process_motorsport_data today [e1, e2] rsvs emps).unassigned = [p1] := by
  constructor
  · rw [process_unassigned_eq, process_events_eq, List.mem_filter, List.mem_insertionSort]
    constructor
    · rintro ⟨hm, hb⟩
      rw [Bool.and_eq_true] at hb
      exact ⟨hm, List.isEmpty_iff.mp hb.1, hb.2⟩
    · rintro ⟨hm, hr, hc⟩
      exact ⟨hm, by simp [hr, hc]⟩
  · rw [process_unassigned_eq]
    rw [show [e1, e2].filterMap (processEvent today emps rsvs) = [p1, p2] by
      simp [List.filterMap_cons, hp1, hp2]]
    have hb1 : (p1.reservations.isEmpty && p1.confirmed) = true := by simp [h1r, h1c]
    have hb2 : (p2.reservations.isEmpty && p2.confirmed) = false := by
      cases hl : p2.reservations with
      | nil => exact absurd hl h2r
      | cons a t => simp [hl]
    simp [List.filter_cons, hb1, hb2]

/-- C8 witness: the theorem applied to the empty-but-confirmed record `wEv1`
and the staffed record `wEv2`. -/
theorem unassigned_membership_witness :
    (wP1 ∈ (process_motorsport_data 0 [wEv1, wEv2] [] wEmps).unassigned ↔
       wP1 ∈ (process_motorsport_data 0 [wEv1, wEv2] [] wEmps).events
         ∧ wP1.reservations = [] ∧ wP1.confirmed = true)
    ∧ (process_motorsport_data 0 [wEv1, wEv2] [] wEmps).unassigned = [wP1] :=
  unassigned_membership 0 [wEv1, wEv2] [] wEmps wP1 wEv1 wEv2 wP1 wP2
    (by decide) rfl rfl (by decide) (by decide)

/-- C9. In the link-field staff-resolution path, an employee id listed in
`PEOPLE RESERVED` for which no reservation record with matching links and
parseable `FROM`/`TO` dates exists still contributes an assignment whose
date range is the event's own range with `remote = false`, and every listed
employee id contributes exactly one entry to the event's staff count. -/
theorem fallback_assignment (today : Int) (emps : List EmpRec) (rsvs : List ResRec)
    (ev : EventRec) (s e : Int) (p : PEvent) (empId : String)
    (hs : ev.fromDate? = some s) (he : ev.toDate? = some e)
    (hp : processEvent today emps rsvs ev = some p)
    (hmem : empId ∈ ev.people_reserved)
    (hnores : resolveReservation rsvs ev.id empId = none) :
    (⟨employeeName emps empId, s, e, false⟩ : Reservation) ∈ p.reservations
    ∧ p.employees_count = ev.people_reserved.length := by
  simp only [processEvent, hs, he] at hp
  split at hp
  · exact absurd hp (by simp)
  · rw [Option.some.injEq] at hp
    subst hp
    constructor
    · refine List.mem_map.mpr ⟨empId, hmem, ?_⟩
      unfold buildReservation
      rw [hnores]
    · simp [eventReservations]

/-- C9 witness: the theorem applied to `wEv2`, whose reserved employee
`emp1` has no reservation row at all. -/
theorem fallback_assignment_witness :
    (⟨employeeName wEmps "emp1", 2, 3, false⟩ : Reservation) ∈ wP2.reservations
    ∧ wP2.employees_count = wEv2.people_reserved.length :=
  fallback_assignment 0 wEmps [] wEv2 2 3 wP2 "emp1" rfl rfl (by decide) (by decide) rfl

/-- Both components of a pair produced by the nested pair loop belong to the
underlying list. -/
theorem mem_pairsAfter_both {α : Type} : ∀ {l : List α} {p : α × α},
    p ∈ pairsAfter l → p.1 ∈ l ∧ p.2 ∈ l := by
  intro l
  induction l with
  | nil => intro p h; simp [pairsAfter] at h
  | cons x xs ih =>
      intro p h
      simp only [pairsAfter] at h
      rcases List.mem_append.mp h with h1 | h2
      · rcases List.mem_map.mp h1 with ⟨y, hy, rfl⟩
        exact ⟨List.mem_cons_self x xs, List.mem_cons_of_mem x hy⟩
      · obtain ⟨ha, hb⟩ := ih h2
        exact ⟨List.mem_cons_of_mem x ha, List.mem_cons_of_mem x hb⟩

/-- Every index pair `i < j` of a list is produced by the nested pair loop. -/
theorem pairsAfter_get_mem {α : Type} : ∀ (l : List α) (i j : Nat) (hj : j < l.length)
    (hij : i < j), (l.get ⟨i, lt_trans hij hj⟩, l.get ⟨j, hj⟩) ∈ pairsAfter l := by
  intro l
  induction l with
  | nil => intro i j hj hij; simp at hj
  | cons x xs ih =>
      intro i j hj hij
      simp only [pairsAfter]
      cases i with
      | zero =>
          cases j with
          | zero => omega
          | succ j' =>
              apply List.mem_append_left
              apply List.mem_map.mpr
              exact ⟨xs.get ⟨j', by simpa using hj⟩, List.get_mem _ _ _, rfl⟩
      | succ i' =>
          cases j with
          | zero => omega
          | succ j' =>
              apply List.mem_append_right
              exact ih i' j' (by simpa using hj) (by omega)

/-- Every pair the conflict loop emits satisfied the overlap test. -/
theorem conflictScan_cond : ∀ (ps : List (TlEntry × TlEntry)) (seen : List (String × String))
    (p : TlEntry × TlEntry), p ∈ conflictScan ps seen → p.2.from_date ≤ p.1.to_date := by
  intro ps
  induction ps with
  | nil => intro seen p h; simp [conflictScan] at h
  | cons q qs ih =>
      intro seen p h
      simp only [conflictScan] at h
      by_cases hc : q.2.from_date ≤ q.1.to_date
      · rw [if_pos hc] at h
        by_cases hk : conflictKey q ∈ seen
        · rw [if_pos hk] at h; exact ih _ _ h
        · rw [if_neg hk] at h
          rcases List.mem_cons.mp h with rfl | h'
          · exact hc
          · exact ih _ _ h'
      · rw [if_neg hc] at h; exact ih _ _ h

/-- When all keys in the remaining pair list are distinct, every pair that
passes the overlap test and whose key is unseen is emitted. -/
theorem conflictScan_complete : ∀ (ps : List (TlEntry × TlEntry)) (seen : List (String × String))
    (p : TlEntry × TlEntry),
    ps.Pairwise (fun a b => conflictKey a ≠ conflictKey b) → p ∈ ps →
    p.2.from_date ≤ p.1.to_date → conflictKey p ∉ seen → p ∈ conflictScan ps seen := by
  intro ps
  induction ps with
  | nil => intro seen p _ h; simp at h
  | cons q qs ih =>
      intro seen p hpw hmem hcnd hseen
      rw [List.pairwise_cons] at hpw
      simp only [conflictScan]
      rcases List.mem_cons.mp hmem with rfl | hmem'
      · rw [if_pos hcnd, if_neg hseen]
        exact List.mem_cons_self _ _
      · by_cases hc : q.2.from_date ≤ q.1.to_date
        · rw [if_pos hc]
          by_cases hk : conflictKey q ∈ seen
          · rw [if_pos hk]; exact ih _ _ hpw.2 hmem' hcnd hseen
          · rw [if_neg hk]
            apply List.mem_cons_of_mem
            apply ih _ _ hpw.2 hmem' hcnd
            intro hk2
            rcases List.mem_cons.mp hk2 with heq | hin
            · exact (hpw.1 p hmem') heq.symm
            · exact hseen hin
        · rw [if_neg hc]; exact ih _ _ hpw.2 hmem' hcnd hseen

/-- With pairwise-distinct event ids, all pairs of the nested loop carry
pairwise-distinct dedup keys. -/
theorem pairsAfter_keys_pairwise : ∀ (l : List TlEntry),
    (l.map TlEntry.event_id).Nodup →
    (pairsAfter l).Pairwise (fun a b => conflictKey a ≠ conflictKey b) := by
  intro l
  induction l with
  | nil => intro h; simp [pairsAfter]
  | cons x xs ih =>
      intro h
      rw [List.map_cons, List.nodup_cons] at h
      obtain ⟨hx, hxs⟩ := h
      simp only [pairsAfter]
      rw [List.pairwise_append]
      refine ⟨?_, ih hxs, ?_⟩
      · rw [List.pairwise_map]
        have hpw : xs.Pairwise (fun a b => a.event_id ≠ b.event_id) :=
          List.pairwise_map.mp hxs
        apply hpw.imp
        intro a b hab
        simp only [conflictKey, ne_eq, Prod.mk.injEq, not_and]
        intro _
        exact hab
      · intro a ha b hb
        rcases List.mem_map.mp ha with ⟨y, hy, rfl⟩
        have hb1 : b.1 ∈ xs := (mem_pairsAfter_both hb).1
        have hnex : x.event_id ≠ b.1.event_id := by
          intro hEq
          exact hx (hEq ▸ List.mem_map_of_mem TlEntry.event_id hb1)
        simp only [conflictKey, ne_eq, Prod.mk.injEq, not_and]
        intro h1
        exact absurd h1 hnex

/-- C1. For each employee, with the timeline of their reservations as
`(event, start, end)` entries sorted by start date ascending,
`detect_conflicts` reports the pair `i < j` iff entry `i`'s end date is
greater than or equal to entry `j`'s start date — an inclusive boundary, so
a same-day handoff is a conflict.  (The dedup key makes the equivalence
exact when the employee's timeline has pairwise-distinct event ids.) -/
theorem conflict_pair_iff (events : List PEvent) (emp : String)
    (hids : ((employeeTimeline events emp).map TlEntry.event_id).Nodup)
    (i j : Nat) (hj : j < (sortedTimeline events emp).length) (hij : i < j) :
    List.Sorted tlLE (sortedTimeline events emp)
    ∧ (((sortedTimeline events emp).get ⟨i, lt_trans hij hj⟩,
        (sortedTimeline events emp).get ⟨j, hj⟩) ∈ detect_conflicts events emp
      ↔ ((sortedTimeline events emp).get ⟨j, hj⟩).from_date
          ≤ ((sortedTimeline events emp).get ⟨i, lt_trans hij hj⟩).to_date) := by
  have hsortnodup : ((sortedTimeline events emp).map TlEntry.event_id).Nodup := by
    have hperm : List.Perm (sortedTimeline events emp) (employeeTimeline events emp) :=
      List.perm_insertionSort tlLE _
    exact ((hperm.map TlEntry.event_id).nodup_iff).mpr hids
  refine ⟨?_, ⟨?_, ?_⟩⟩
  · unfold sortedTimeline
    exact List.sorted_insertionSort tlLE _
  · intro hmem
    unfold detect_conflicts at hmem
    exact conflictScan_cond _ _ _ hmem
  · intro hcnd
    unfold detect_conflicts
    apply conflictScan_complete _ _ _ (pairsAfter_keys_pairwise _ hsortnodup)
      (pairsAfter_get_mem _ i j hj hij) hcnd
    simp

/-- C1 witness: employee `E` hands off from `evA` (reserved days 0-5) to
`evB` (reserved days 5-9); the shared day 5 makes the sorted pair `0 < 1` a
reported conflict. -/
theorem conflict_pair_witness :
    ((⟨"evA", 0, 5⟩ : TlEntry), (⟨"evB", 5, 9⟩ : TlEntry)) ∈ detect_conflicts handoffEvents "E" := by
  have h := conflict_pair_iff handoffEvents "E" (by decide) 0 1 (by decide) (by decide)
  exact h.2.mpr (by decide)
